import Mathlib

/-!
Shallow embedding of the SMRegions randomized resampling engine
(`smregions/walker.py`, `smregions/executor.py`, `smregions/smregions.py`,
`smregions/main.py`) and proofs about its specification.

Conventions used throughout:
* Python `int` values that are always non-negative in the program (sample
  counts, chunk sizes, counters) are modelled as `Nat`; genomic coordinates
  are `Int`.
* Python `float` values that may become non-finite are modelled as
  `Option ℚ` (`none` stands for NaN or ±Inf, `some q` for a finite value).
* Fallible Python code is modelled in `Except PyErr`; a raised exception is
  `.error e`.
* The numpy global random stream is modelled by abstract oracle functions
  passed as parameters (`draw`, `rand`): no theorem below depends on the
  values actually drawn, only on whether and how the generator is invoked.
-/

namespace SMReg

/-- Python exceptions that the modelled code can raise. -/
inductive PyErr where
  | attributeError (msg : String)
  | valueError (msg : String)
  | zeroDivisionError
  | indexError
  deriving DecidableEq

/-- A Python float that may be non-finite, used for the aggregation-phase
p- and q-values: `none` models NaN/±Inf, `some q` a finite value. -/
abbrev QF := Option ℚ

/-- A Python/numpy float modelled as an unreduced fraction `num / den`;
`den = 0` encodes a non-finite value (the NaN produced by `0.0 / 0.0` or the
infinities produced by `x / 0.0`).  Arithmetic never normalizes, so every
operation reduces inside the kernel. -/
structure PF where
  num : Int
  den : Int
  deriving DecidableEq

/-- Finite means a non-zero denominator. -/
def PF.isFinite (x : PF) : Bool := decide (x.den ≠ 0)

/-- Float addition; any non-finite operand gives a non-finite result. -/
def PF.add (x y : PF) : PF := ⟨x.num * y.den + y.num * x.den, x.den * y.den⟩

/-- Float (numpy elementwise) division; division by zero gives a
non-finite result. -/
def PF.div (x y : PF) : PF := ⟨x.num * y.den, x.den * y.num⟩

/-- Python `x == 0` on a float: false for every non-finite value. -/
def PF.eqZero (x : PF) : Bool := x.isFinite && decide (x.num = 0)

/-- `x < 0` on a float: false for NaN (the numpy sign check). -/
def PF.isNeg (x : PF) : Bool := x.isFinite && decide (x.num * x.den < 0)

/-- `x == 1` on a float. -/
def PF.eqOne (x : PF) : Bool := x.isFinite && decide (x.num = x.den)

/-- Python `sum(list)` over floats (starts from the int `0`). -/
def pfSum (l : List PF) : PF := l.foldl PF.add ⟨0, 1⟩

/-- `walker.partitions_list(total_size, chunk_size)`:
`[chunk_size for _ in range(total_size // chunk_size)]` plus the remainder
`total_size % chunk_size` when it is non-zero.  (For `chunk_size = 0` the
Python code raises `ZeroDivisionError`; every caller modelled below guards
that case before calling.) -/
def partitions_list (total_size chunk_size : Nat) : List Nat :=
  let partitions := List.replicate (total_size / chunk_size) chunk_size
  let res := total_size % chunk_size
  if res ≠ 0 then partitions ++ [res] else partitions

/-- The partition planning of `ElementExecutor.run`
(`executor.py` lines 91–93): `chunk_count = (S * M) // C`,
`chunk_size = S if chunk_count == 0 else S // chunk_count`, then
`partitions_list(S, chunk_size)`.  Returns
`(chunk_count, chunk_size, partitions)`.  A zero divisor raises
`ZeroDivisionError` exactly where Python would (`(S*M) // 0`, or
`range(S // 0)` inside `partitions_list`). -/
def plan_partitions (S M C : Nat) : Except PyErr (Nat × Nat × List Nat) :=
  if C = 0 then .error .zeroDivisionError
  else
    let chunk_count := S * M / C
    let chunk_size := if chunk_count = 0 then S else S / chunk_count
    if chunk_size = 0 then .error .zeroDivisionError
    else .ok (chunk_count, chunk_size, partitions_list S chunk_size)

instance {ε α : Type} [DecidableEq ε] [DecidableEq α] : DecidableEq (Except ε α) :=
  fun a b =>
    match a, b with
    | .error e, .error f =>
      if h : e = f then isTrue (by rw [h]) else isFalse (by simp [h])
    | .error _, .ok _ => isFalse (by simp)
    | .ok _, .error _ => isFalse (by simp)
    | .ok x, .ok y =>
      if h : x = y then isTrue (by rw [h]) else isFalse (by simp [h])


/-- An observed mutation, as consumed by the executor: only its `POSITION`
and `ALT` fields are used (`executor.py` line 47). -/
structure Mut where
  pos : Int
  alt : Char
  deriving DecidableEq

/-- A genomic segment `{CHROMOSOME, START, END}` of an element. -/
structure Segment where
  chrom : String
  start : Int
  stop : Int
  deriving DecidableEq

/-- A region of interest: an intervaltree interval with `begin`, `end` and a
`data` label (`ELEMENT;SYMBOL`, built in `load.py` line 181). -/
structure Region where
  start : Int
  stop : Int
  data : String
  deriving DecidableEq

/-- A signature table: mapping from `triplet>alt` keys to probabilities;
`sigGet` models Python `dict.get(key, 0.0)`. -/
abbrev SigTable := List (String × PF)

def sigGet (t : SigTable) (k : String) : PF := (t.lookup k).getD ⟨0, 1⟩

/-- The dynamic value bound to `ElementExecutor.mutpersample`.  The call site
in `SMRegions.run` passes an `int` (the element's random integer) while the
executor body expects a mapping from sample id to that sample's mutations. -/
inductive MutPerSample where
  | int (n : Nat)
  | dict (entries : List (String × List Mut))
  deriving DecidableEq

/-- The `self.result` dictionary an executor returns.  The optional fields
model the keys only present when partitions are handed off
(`executor.py` lines 125–128).  `warnings` collects the messages logged by
`logger.warning`, and `simTrace` records the shape `(rows, cols)` of every
`np.random.choice` call actually performed. -/
structure RunResult where
  nmuts : Nat
  partitions : List Nat
  in_reg_counts : List (String × Nat × Nat)
  region_of_interest : Option (List Region)
  simulation_items : Option (List (Int × Char))
  simulation_probs : Option (List (String × List PF))
  warnings : List String
  simTrace : List (Nat × Nat)
  deriving DecidableEq

/-- The configuration values consumed by the core. -/
structure Config where
  sampling : Nat
  sampling_chunk : Nat
  muts_min : Nat
  seed : Nat
  deriving DecidableEq

/-- `ElementExecutor` state after `__init__`. -/
structure ElementExecutor where
  name : String
  muts : List Mut
  signature : String → Option SigTable
  segments : List Segment
  regions_of_interest : List Region
  mutpersample : MutPerSample
  sampling_size : Nat
  sampling_chunk : Nat
  seed : Option Nat

/-- `ElementExecutor.__init__`: positional parameters in source order;
`seed` defaults to `None` and `sampling_chunk` is the configured value times
`10^6`. -/
def ElementExecutor.init (element_id : String) (muts : List Mut)
    (segments : List Segment) (regions_of_interest : List Region)
    (signature : String → Option SigTable) (config : Config)
    (mutpersample : MutPerSample) (seed : Option Nat := none) : ElementExecutor :=
  { name := element_id
    muts := muts
    signature := signature
    segments := segments
    regions_of_interest := regions_of_interest
    mutpersample := mutpersample
    sampling_size := config.sampling
    sampling_chunk := config.sampling_chunk * 10 ^ 6
    seed := seed }

/-- `walker.flatten_partitions(results)`: yields one
`(name, partition, result, np.random.randint(0, 2**32-1))` tuple per pending
partition of every result, in result order.  `rand k` models the `k`-th
`randint` drawn from the master process stream. -/
def flatten_partitions (rand : Nat → Nat) (results : List (String × RunResult)) :
    List (String × Nat × RunResult × Nat) :=
  (results.foldl (fun acc nr =>
    nr.2.partitions.foldl (fun acc2 p =>
      (acc2.1 ++ [(nr.1, p, nr.2, rand acc2.2)], acc2.2 + 1)) acc)
    (([], 0) : List (String × Nat × RunResult × Nat) × Nat)).1


/-- The state of the continuation-round loop in `SMRegions.run`
(lines 110–118): the iteration counter `i`, the flattened partition list and
the results object the loop body updates through `compute_sampling`. -/
structure ContState (α ρ : Type) where
  i : Nat
  partitions : List α
  results : ρ

/-- The loop guard `len(partitions) > 0 or i == 0`. -/
def contCond {α ρ : Type} (s : ContState α ρ) : Bool :=
  decide (s.partitions.length > 0) || decide (s.i = 0)

/-- One iteration of the loop body: increments `i` and submits the *same*
partition list to the pool; `g` models whatever `compute_sampling` does to
the results object (nothing in the body touches `partitions`). -/
def contBody {α ρ : Type} (g : List α → ρ → ρ) (s : ContState α ρ) :
    ContState α ρ :=
  { i := s.i + 1, partitions := s.partitions, results := g s.partitions s.results }

/-- The loop state after `n` iterations of the body. -/
def contIter {α ρ : Type} (g : List α → ρ → ρ) (s0 : ContState α ρ) :
    Nat → ContState α ρ
  | 0 => s0
  | n + 1 => contBody g (contIter g s0 n)

/-- Fuel-bounded execution of the whole loop: `some s` means the guard
became false and the loop exited in state `s`; `none` means the fuel ran out
with the guard still true. -/
def contRun {α ρ : Type} (g : List α → ρ → ρ) :
    Nat → ContState α ρ → Option (ContState α ρ)
  | 0, _ => none
  | fuel + 1, s => if contCond s then contRun g fuel (contBody g s) else some s


/-- The observable steps of `main.py:main`, in program order. -/
inductive MainStep where
  | warnAlreadyCalculated
  | loadConfiguration
  | constructAnalysis
  | runAnalysis
  deriving DecidableEq

/-- Outcome of `main`: the file system after the call plus the trace of the
steps it performed. -/
structure MainOutcome where
  fs : String → Option String
  steps : List MainStep

/-- Point update of a file-system map. -/
def fsWrite (fs : String → Option String) (k v : String) :
    String → Option String :=
  fun x => if x = k then some v else fs x

/-- `main.py:main`: if `path.exists(output_file)` it logs a warning and
returns at once; otherwise it loads the configuration, constructs the
`SMRegions` analysis (which loads/validates input paths) and runs it, which
ends by writing the output file (`pipelineOutput` stands for whatever
`analysis.run()` writes there). -/
def smregions_main (fs : String → Option String) (output_file : String)
    (pipelineOutput : String) : MainOutcome :=
  if (fs output_file).isSome then
    { fs := fs, steps := [.warnAlreadyCalculated] }
  else
    { fs := fsWrite fs output_file pipelineOutput
      steps := [.loadConfiguration, .constructAnalysis, .runAnalysis] }


/-- Stable insertion used to model Python's stable `sorted`: `x` is placed
before the first element `y` with `le x y`, so earlier elements win ties. -/
def insertLe {α : Type} (le : α → α → Bool) (x : α) : List α → List α
  | [] => [x]
  | y :: ys => if le x y then x :: y :: ys else y :: insertLe le x ys

/-- Python `sorted(l, key=...)` with `le` the induced ≤ test (stable). -/
def pySorted {α : Type} (le : α → α → Bool) (l : List α) : List α :=
  l.foldr (insertLe le) []


/-- Candidate substitutions contributed by one genomic position:
`(pos, alt, ref_triplet)` for each of the three non-reference bases, or
nothing when the centred triplet contains an undetermined base
(`executor.py` lines 60–71).  `genome c p` is the reference base at position
`p` of chromosome `c`; `reference.generate_triplets` yields the window
`p-1, p, p+1` and `ref = ref_triplet[1]` is the base at `p` itself. -/
def posCandidates (genome : String → Int → Char) (chrom : String) (pos : Int) :
    List (Int × Char × String) :=
  let t : List Char :=
    [genome chrom (pos - 1), genome chrom pos, genome chrom (pos + 1)]
  if 'N' ∈ t then []
  else
    let ref := genome chrom pos
    (['A', 'C', 'G', 'T'].filter (fun a => a ≠ ref)).map
      (fun alt => (pos, alt, String.mk t))

/-- `range(START, END + 1)` as an inclusive integer interval. -/
def intRange (a b : Int) : List Int :=
  (List.range (b + 1 - a).toNat).map (fun i => a + (i : Int))

/-- Candidates of one segment.  `executor.py` line 60 zips
`range(START, END + 1)` with `reference.generate_triplets(CHROM, START,
END)`, but `generate_triplets` (`reference.py` lines 66–69) fetches only
`END - START + 2` bases (positions `START-1 .. END`) and its 3-wide sliding
window therefore yields only `END - START` triplets, so the `zip` silently
drops the segment's last position — and yields nothing at all for a
single-base segment.  Hence positions `START .. END - 1` are enumerated. -/
def segmentCandidates (genome : String → Int → Char) (seg : Segment) :
    List (Int × Char × String) :=
  (intRange seg.start (seg.stop - 1)).flatMap (posCandidates genome seg.chrom)

/-- All `items_to_simulate` entries of one element together with the triplet
used to look their weight up. -/
def elementCandidates (genome : String → Int → Char) (segs : List Segment) :
    List (Int × Char × String) :=
  segs.flatMap (segmentCandidates genome)

/-- The weight of one candidate for one sample:
`1.0` without a signature, else `signature.get(ref_triplet + '>' + alt, 0.0)`
(`executor.py` lines 75–78). -/
def candWeight (sig : Option SigTable) (c : Int × Char × String) : PF :=
  match sig with
  | none => ⟨1, 1⟩
  | some tbl => sigGet tbl (c.2.2 ++ ">" ++ String.mk [c.2.1])

/-- The message of `logger.warning('Probability of simulation equal to 0
in {}'.format(self.name))` (`executor.py` line 82). -/
def zeroWarn (name : String) : String :=
  "Probability of simulation equal to 0 in " ++ name

/-- Python dict read with default (`defaultdict(list)` behaviour). -/
def alGet {α : Type} (l : List (String × α)) (k : String) (d : α) : α :=
  (l.lookup k).getD d

/-- Python dict write: overwrite in place, else append. -/
def alSet {α : Type} : List (String × α) → String → α → List (String × α)
  | [], k, v => [(k, v)]
  | (k', v') :: rest, k, v =>
    if k' = k then (k, v) :: rest else (k', v') :: alSet rest k v

/-- numpy `array / array.sum()`: each entry is divided by the (possibly
zero, possibly non-finite) sum; `0/0` and `x/0` give non-finite entries. -/
def npNormalize (l : List PF) : List PF :=
  let s := pfSum l
  l.map (fun x => PF.div x s)

/-- `np.random.choice(range(nItems), size=(rows, cols), p=p, replace=True)`.
numpy validates `p` (size, non-finite entries, sign, total mass) and raises
`ValueError` otherwise; the actual draws come from the abstract oracle
`draw`. -/
def npChoice (draw : Nat → Nat → List PF → List (List Nat))
    (nItems rows cols : Nat) (p : List PF) : Except PyErr (List (List Nat)) :=
  if p.length ≠ nItems then .error (.valueError "a and p must have same size")
  else if p.any (fun x => !x.isFinite) then
    .error (.valueError "probabilities contain NaN")
  else if p.any PF.isNeg then
    .error (.valueError "probabilities are not non-negative")
  else if !(pfSum p).eqOne then
    .error (.valueError "probabilities do not sum to 1")
  else .ok (draw rows cols p)

/-- Mutable state threaded through `ElementExecutor.run`'s loops:
the per-sample probability dict, `self.result['partitions']`, the local
`in_reg_counts` dict, the value of `self.result['in_reg_counts']`, the
optional handoff keys, the warnings logged and the draw calls performed. -/
structure ExecState where
  probs : List (String × List PF)
  partitions : List Nat
  in_reg : List (String × Nat × Nat)
  res_in_reg : List (String × Nat × Nat)
  region_of_interest : Option (List Region)
  simulation_items : Option (List (Int × Char))
  simulation_probs : Option (List (String × List PF))
  warnings : List String
  simTrace : List (Nat × Nat)

/-- One iteration of the inner loop
`for sample_id, sample_mutations in self.mutpersample.items():`
(`executor.py` lines 85–106): normalize that sample's weights in place,
recompute the partition list, pop its first entry and draw the
`first_partition × len(sample_mutations)` index matrix. -/
def innerStep (ex : ElementExecutor)
    (draw : Nat → Nat → List PF → List (List Nat))
    (items : List (Int × Char)) (muts_count : Nat)
    (acc : ExecState × List (List (Int × Char))) (entry : String × List Mut) :
    Except PyErr (ExecState × List (List (Int × Char))) :=
  let st := acc.1
  let lnorm := npNormalize (alGet st.probs entry.1 [])
  let st := { st with probs := alSet st.probs entry.1 lnorm }
  if ex.sampling_chunk = 0 then .error .zeroDivisionError
  else
    let chunk_count := ex.sampling_size * muts_count / ex.sampling_chunk
    let chunk_size :=
      if chunk_count = 0 then ex.sampling_size else ex.sampling_size / chunk_count
    if chunk_size = 0 then .error .zeroDivisionError
    else
      match partitions_list ex.sampling_size chunk_size with
      | [] => .error .indexError
      | first :: rest =>
        match npChoice draw items.length first entry.2.length lnorm with
        | .error e => .error e
        | .ok idx =>
          let sims := idx.map (fun row => row.map (fun x => items.getD x (0, 'A')))
          .ok ({ st with
                  partitions := rest
                  simTrace := st.simTrace ++ [(first, entry.2.length)] },
               acc.2 ++ sims)

/-- Count of `(position, alt)` events with `start <= position <= end`
(inclusive bounds, `executor.py` lines 113–121). -/
def countInRange (start stop : Int) (l : List (Int × Char)) : Nat :=
  l.countP (fun m => decide (start ≤ m.1 ∧ m.1 ≤ stop))

/-- The per-region counting loop (`executor.py` lines 108–122): for each
region of interest store `(count_observed, count_simulated)` under the
region's label. -/
def regionCounts (observed : List (Int × Char))
    (sims : List (List (Int × Char))) (regs : List Region)
    (in_reg : List (String × Nat × Nat)) : List (String × Nat × Nat) :=
  regs.foldl (fun acc reg =>
    alSet acc reg.data
      (countInRange reg.start reg.stop observed,
       (sims.map (fun s => countInRange reg.start reg.stop s)).sum)) in_reg

/-- One iteration of the outer loop
`for sample_id in self.mutpersample.keys():` (`executor.py` lines 80–130):
either the zero-total-weight warning branch, or the full simulate-and-count
branch followed by the partition handoff; in both branches the iteration
ends by assigning the local counts dict to `self.result['in_reg_counts']`. -/
def outerStep (ex : ElementExecutor)
    (draw : Nat → Nat → List PF → List (List Nat))
    (items : List (Int × Char)) (mps : List (String × List Mut))
    (observed : List (Int × Char)) (muts_count : Nat)
    (st : ExecState) (sample_id : String) : Except PyErr ExecState :=
  if (pfSum (alGet st.probs sample_id [])).eqZero then
    .ok { st with
      warnings := st.warnings ++ [zeroWarn ex.name]
      res_in_reg := st.in_reg }
  else
    match mps.foldlM (innerStep ex draw items muts_count)
        (st, ([] : List (List (Int × Char)))) with
    | .error e => .error e
    | .ok (st1, sims) =>
      let st2 := { st1 with
        in_reg := regionCounts observed sims ex.regions_of_interest st1.in_reg }
      let st3 :=
        if st2.partitions.length > 0 then
          { st2 with
            region_of_interest := some ex.regions_of_interest
            simulation_items := some items
            simulation_probs := some st2.probs }
        else st2
      .ok { st3 with res_in_reg := st3.in_reg }

/-- `ElementExecutor.run` (`executor.py` lines 43–132).  `genome` is the
reference-genome accessor; `draw` abstracts the numpy random stream seeded
by `np.random.seed(self.seed)` (with `self.seed = None`, numpy seeds itself
from OS entropy, so the stream is not reproducible). -/
def ElementExecutor.run (ex : ElementExecutor) (genome : String → Int → Char)
    (draw : Nat → Nat → List PF → List (List Nat)) : Except PyErr RunResult :=
  let observed := ex.muts.map (fun m => (m.pos, m.alt))
  let muts_count := ex.muts.length
  if 0 < muts_count ∧ 0 < ex.regions_of_interest.length then
    match ex.mutpersample with
    | .int _ =>
      .error (.attributeError "int object has no attribute keys")
    | .dict mps =>
      let cands := elementCandidates genome ex.segments
      let items := cands.map (fun c => (c.1, c.2.1))
      let probs0 := mps.map (fun e =>
        (e.1, cands.map (fun c => candWeight (ex.signature e.1) c)))
      let st0 : ExecState := ⟨probs0, [], [], [], none, none, none, [], []⟩
      match mps.foldlM
          (fun st e => outerStep ex draw items mps observed muts_count st e.1)
          st0 with
      | .error e => .error e
      | .ok st =>
        .ok { nmuts := muts_count
              partitions := st.partitions
              in_reg_counts := st.res_in_reg
              region_of_interest := st.region_of_interest
              simulation_items := st.simulation_items
              simulation_probs := st.simulation_probs
              warnings := st.warnings
              simTrace := st.simTrace }
  else
    .ok { nmuts := muts_count
          partitions := []
          in_reg_counts := []
          region_of_interest := none
          simulation_items := none
          simulation_probs := none
          warnings := []
          simTrace := [] }

/-- The executor-construction comprehension of `SMRegions.run`
(lines 90–97): sort the mutation dict by element id, keep elements with at
least `muts_min` mutations, build one executor each — passing the random
integer `rand k` positionally, i.e. into `mutpersample`, and leaving
`seed = None` — then sort executors by decreasing mutation count. -/
def makeExecutors (config : Config) (rand : Nat → Nat)
    (mutations : List (String × List Mut))
    (elements : String → List Segment)
    (regions_of_interest : String → List Region)
    (signature : String → Option SigTable) : List ElementExecutor :=
  let sortedMuts := pySorted (fun a b => decide (a.1 ≤ b.1)) mutations
  let filtered := sortedMuts.filter (fun e => decide (config.muts_min ≤ e.2.length))
  let executors := filtered.enum.map (fun ie =>
    ElementExecutor.init ie.2.1 ie.2.2 (elements ie.2.1)
      (regions_of_interest ie.2.1) signature config (.int (rand ie.1)))
  pySorted (fun a b => decide (b.muts.length ≤ a.muts.length)) executors

/-- One entry of `list_results` / one row of the result table
(`smregions.py` lines 124–142).  `u` and `p_value` come from the external
`scipy.stats.power_divergence` call, abstracted below as `pdiv`; they are
floats that may be non-finite. -/
structure Row where
  region : String
  hugo : String
  total_muts : Nat
  observed : Nat
  mean_simulated : ℚ
  u : QF
  p_value : QF
  deriving DecidableEq

/-- The row built for one `(region_name, (observed, simulated))` entry of a
result (`smregions.py` lines 125–136): `mean_simulated = simulated / S`,
`u, p = power_divergence([obs, total-obs], [mean, total-mean])`, and the
region label is split on `";"` into `REGION` and `HUGO_SYMBOL`.
(`pdiv` abstracts the external SciPy routine; Python would raise
`ZeroDivisionError` for `S = 0`, and the theorems below assume `1 ≤ S`.) -/
def rowOf (S : Nat) (pdiv : ℚ → ℚ → ℚ → ℚ → QF × QF) (total_mut : Nat)
    (rc : String × Nat × Nat) : Row :=
  let observed := rc.2.1
  let mean_simulated : ℚ := (rc.2.2 : ℚ) / (S : ℚ)
  let up := pdiv (observed : ℚ) ((total_mut : ℚ) - (observed : ℚ))
    mean_simulated ((total_mut : ℚ) - mean_simulated)
  { region := (rc.1.splitOn ";").getD 0 ""
    hugo := (rc.1.splitOn ";").getD 1 ""
    total_muts := total_mut
    observed := observed
    mean_simulated := mean_simulated
    u := up.1
    p_value := up.2 }

/-- The p-value loop of `SMRegions.run` (lines 124–136): iterate the result
set, and for every region entry append a row exactly when `observed > 0`. -/
def computeRows (S : Nat) (pdiv : ℚ → ℚ → ℚ → ℚ → QF × QF)
    (results : List RunResult) : List Row :=
  results.foldl (fun acc result =>
    result.in_reg_counts.foldl (fun acc2 rc =>
      if 0 < rc.2.1 then acc2 ++ [rowOf S pdiv result.nmuts rc] else acc2)
      acc) []

/-- The row set as described by the specification: one row per
`(element, region)` pair with a strictly positive observed count, nothing
for the others. -/
def rowsSpec (S : Nat) (pdiv : ℚ → ℚ → ℚ → ℚ → QF × QF)
    (results : List RunResult) : List Row :=
  results.flatMap (fun result =>
    result.in_reg_counts.filterMap (fun rc =>
      if 0 < rc.2.1 then some (rowOf S pdiv result.nmuts rc) else none))

/-- The positive-selection filter (`smregions.py` lines 143–144): when the
frame is non-empty, keep only rows with
`OBSERVED_REGION >= MEAN_SIMULATED`. -/
def retainRows (rows : List Row) : List Row :=
  if 0 < rows.length then
    rows.filter (fun r => decide (r.mean_simulated ≤ (r.observed : ℚ)))
  else rows

/-- Suffix minima of a list (`np.minimum.accumulate` on the reversed list,
then reversed back). -/
def suffMin : List ℚ → List ℚ
  | [] => []
  | x :: xs =>
    match suffMin xs with
    | [] => [x]
    | y :: ys => min x y :: y :: ys

/-- Models the external `statsmodels.stats.multitest.multipletests(p,
method='fdr_bh')[1]` call on a vector of finite p-values: sort ascending,
scale the `k`-th smallest by `n / (k+1)`, take suffix minima, clip at 1 and
restore the original order. -/
def bh (ps : List ℚ) : List ℚ :=
  let n := ps.length
  let sorted := pySorted (fun a b => decide (a.2 ≤ b.2)) ps.enum
  let raw := sorted.enum.map (fun kip =>
    (kip.2.2 * (n : ℚ) / ((kip.1 : ℚ) + 1), kip.2.1))
  let qs := (suffMin (raw.map (fun x => x.1))).map (fun q => min q 1)
  let adj := qs.zip (raw.map (fun x => x.2))
  (List.range n).map (fun i =>
    ((adj.find? (fun x => decide (x.2 = i))).map (fun x => x.1)).getD 0)

/-- Scatter the corrected values back into the finite positions
(`pval_corrected = np.full(..., np.nan); pval_corrected[mask] = ...`,
`smregions.py` lines 151–152): non-finite positions receive NaN. -/
def scatterQ : List QF → List ℚ → List QF
  | [], _ => []
  | some _ :: rest, q :: qs => some q :: scatterQ rest qs
  | some _ :: rest, [] => none :: scatterQ rest []
  | none :: rest, qs => none :: scatterQ rest qs

/-- Lines 149–152 of `smregions.py`: mask the finite p-values, correct them
with `fdr_bh`, and scatter the corrected values over a NaN-filled column. -/
def fillQ (ps : List QF) : List QF :=
  scatterQ ps (bh (ps.filterMap id))

/-- The `Q_VALUE` column (`smregions.py` lines 146–155): the corrected
column when the retained frame is non-empty, otherwise a copy of the (empty)
`P_VALUE` column. -/
def qColumn (rows : List Row) : List QF :=
  if 0 < rows.length then fillQ (rows.map (fun r => r.p_value))
  else rows.map (fun r => r.p_value)

/-- The final emitted table: the retained rows paired positionally with the
`Q_VALUE` column. -/
def finalTable (S : Nat) (pdiv : ℚ → ℚ → ℚ → ℚ → QF × QF)
    (results : List RunResult) : List (Row × QF) :=
  let rows := retainRows (computeRows S pdiv results)
  rows.zip (qColumn rows)

/-- A `power_divergence` stand-in that always reports non-finite
statistics, used by concrete witnesses. -/
def pdivNaN : ℚ → ℚ → ℚ → ℚ → QF × QF := fun _ _ _ _ => (none, none)

/-- A concrete completed accumulator used by concrete witnesses: three
mutations in total, one region with `observed = 2` and `simulated = 1`. -/
def sampleRes : RunResult := ⟨3, [], [("R;G", 2, 1)], none, none, none, [], []⟩

/-- The executor `SMRegions.run` builds for a one-element input
(`rand ≡ 7`): the random integer lands in `mutpersample`, `seed` is `None`. -/
def ex2w : ElementExecutor :=
  ElementExecutor.init "E" [⟨5, 'A'⟩] [] [⟨1, 10, "R;S"⟩] (fun _ => none)
    ⟨10, 1, 1, 0⟩ (.int 7)

/-- A directly-constructed executor (proper per-sample mapping) with two
sample scopes: `s1` has an all-zero signature table, `s2` has none (uniform
weights).  Its two-base segment 100–101 yields candidates at position 100
(the zipped triplet stream drops the segment's last position). -/
def exMixedZero : ElementExecutor :=
  ElementExecutor.init "GENE2" [⟨100, 'A'⟩] [⟨"1", 100, 101⟩]
    [⟨100, 102, "R;G"⟩] (fun sid => if sid = "s1" then some [] else none)
    ⟨4, 1, 1, 0⟩ (.dict [("s1", [⟨100, 'A'⟩]), ("s2", [⟨100, 'A'⟩])])

/-- A directly-constructed executor whose two sample scopes both carry an
all-zero signature table, over the same two-base segment (so candidates
exist but every candidate's weight is zero). -/
def exAllZero : ElementExecutor :=
  ElementExecutor.init "GENE3" [⟨100, 'A'⟩] [⟨"1", 100, 101⟩]
    [⟨100, 102, "R;G"⟩] (fun _ => some []) ⟨4, 1, 1, 0⟩
    (.dict [("s1", [⟨100, 'A'⟩]), ("s2", [⟨100, 'A'⟩])])

theorem mem_insertLe {α : Type} (le : α → α → Bool) (x p : α) (l : List α) :
    p ∈ insertLe le x l ↔ p = x ∨ p ∈ l := by
  induction l with
  | nil => simp [insertLe]
  | cons y ys ih =>
    simp only [insertLe]
    split
    · simp
    · simp [ih]
      tauto

theorem mem_pySorted {α : Type} (le : α → α → Bool) (p : α) (l : List α) :
    p ∈ pySorted le l ↔ p ∈ l := by
  induction l with
  | nil => simp [pySorted]
  | cons y ys ih =>
    simp only [pySorted, List.foldr_cons] at *
    rw [mem_insertLe, ih]
    simp

theorem partitions_list_eq (t c : Nat) :
    partitions_list t c =
      List.replicate (t / c) c ++ (if t % c ≠ 0 then [t % c] else []) := by
  simp only [partitions_list]
  split <;> simp

theorem partitions_list_mem (t c : Nat) (hc : 1 ≤ c) :
    ∀ p ∈ partitions_list t c, 1 ≤ p ∧ p ≤ c := by
  intro p hp
  rw [partitions_list_eq, List.mem_append] at hp
  rcases hp with hp | hp
  · rcases List.eq_of_mem_replicate hp with rfl
    exact ⟨hc, le_refl _⟩
  · by_cases h0 : t % c = 0
    · simp [h0] at hp
    · simp only [h0, ne_eq, not_false_iff, if_true, List.mem_singleton] at hp
      subst hp
      exact ⟨Nat.one_le_iff_ne_zero.mpr h0, Nat.le_of_lt (Nat.mod_lt _ (by omega))⟩

theorem partitions_list_sum (t c : Nat) (hc : 1 ≤ c) :
    (partitions_list t c).sum = t := by
  rw [partitions_list_eq]
  by_cases h0 : t % c = 0
  · simp [h0, List.sum_replicate, smul_eq_mul,
      Nat.div_mul_cancel (Nat.dvd_of_mod_eq_zero h0)]
  · simp only [h0, ne_eq, not_false_iff, if_true, List.sum_append,
      List.sum_replicate, smul_eq_mul, List.sum_cons, List.sum_nil, add_zero]
    rw [mul_comm]
    exact Nat.div_add_mod t c

theorem partitions_list_length (t c : Nat) :
    (partitions_list t c).length = t / c + (if t % c ≠ 0 then 1 else 0) := by
  rw [partitions_list_eq]
  by_cases h0 : t % c = 0 <;> simp [h0]

theorem partitions_list_self (S : Nat) (hS : 1 ≤ S) :
    partitions_list S S = [S] := by
  simp [partitions_list, Nat.div_self (by omega : 0 < S), Nat.mod_self]

/-- C3: for every `total_size ≥ 1` and `chunk_size ≥ 1`,
`partitions_list total_size chunk_size` returns `total_size / chunk_size`
partitions of size `chunk_size` plus one remainder partition equal to
`total_size % chunk_size` when that remainder is non-zero; every returned
partition is positive and at most `chunk_size`, and the returned partitions
sum exactly to `total_size`. -/
theorem partitions_list_correct (total chunk : Nat) (ht : 1 ≤ total) (hc : 1 ≤ chunk) :
    partitions_list total chunk =
      List.replicate (total / chunk) chunk ++
        (if total % chunk ≠ 0 then [total % chunk] else []) ∧
    (∀ p ∈ partitions_list total chunk, 1 ≤ p ∧ p ≤ chunk) ∧
    (partitions_list total chunk).sum = total :=
  ⟨partitions_list_eq total chunk, partitions_list_mem total chunk hc,
    partitions_list_sum total chunk hc⟩

/-- Witness for C3 at `total_size = 5`, `chunk_size = 2`. -/
theorem partitions_list_correct_witness :
    (1 ≤ (5 : Nat)) ∧ (1 ≤ (2 : Nat)) ∧
    (partitions_list 5 2 =
        List.replicate (5 / 2) 2 ++ (if 5 % 2 ≠ 0 then [5 % 2] else []) ∧
      (∀ p ∈ partitions_list 5 2, 1 ≤ p ∧ p ≤ 2) ∧
      (partitions_list 5 2).sum = 5) :=
  ⟨by decide, by decide, partitions_list_correct 5 2 (by decide) (by decide)⟩

/-- C4 counterexample.  At `S = 3`, `M = 5`, `C = 8` the planner produces the
single partition `[3]` whose draw matrix has `3 * 5 = 15 > 8` entries,
contradicting "no resulting partition exceeds the size implied by `C`".
At `S = 7`, `M = 4`, `C = 7` the planner produces seven partitions of size 1
although the claim predicts `chunk_count = 4` full chunks plus one remainder
chunk (five partitions, since `7 % 4 ≠ 0`).  At `S = 1`, `M = 10`, `C = 3`
the computed chunk size `1 / 3` is zero and the code raises
`ZeroDivisionError` instead of decomposing the request. -/
theorem plan_partitions_counterexample :
    (plan_partitions 3 5 8 = .ok (1, 3, [3]) ∧ ¬ (3 * 5 ≤ 8)) ∧
    (plan_partitions 7 4 7 = .ok (4, 1, [1, 1, 1, 1, 1, 1, 1]) ∧
      7 % 4 ≠ 0 ∧ ¬ (([1, 1, 1, 1, 1, 1, 1] : List Nat).length = 4 + 1)) ∧
    plan_partitions 1 10 3 = .error .zeroDivisionError := by
  decide

/-- C4 amended: for `S, M, C ≥ 1` the planning computes
`chunk_count = (S * M) / C`; if `chunk_count = 0` the whole request is one
partition of size `S` and then `S * M ≤ C`; otherwise, provided the computed
chunk size `S / chunk_count` is non-zero, the request decomposes into
`S / chunk_size` full chunks plus a final remainder chunk exactly when
`S % chunk_size ≠ 0`, the partitions sum to `S`, and every partition is
positive and at most `chunk_size` (the bound `partition * M ≤ C` does not
hold in general); when the computed chunk size is zero the code raises
`ZeroDivisionError`. -/
theorem plan_partitions_amended (S M C : Nat) (hS : 1 ≤ S) (hM : 1 ≤ M) (hC : 1 ≤ C) :
    (S * M / C = 0 → plan_partitions S M C = .ok (0, S, [S]) ∧ S * M ≤ C) ∧
    (∀ cc, cc = S * M / C → cc ≠ 0 → S / cc ≠ 0 →
      plan_partitions S M C = .ok (cc, S / cc, partitions_list S (S / cc)) ∧
      (partitions_list S (S / cc)).sum = S ∧
      (∀ p ∈ partitions_list S (S / cc), 1 ≤ p ∧ p ≤ S / cc) ∧
      (partitions_list S (S / cc)).length =
        S / (S / cc) + (if S % (S / cc) ≠ 0 then 1 else 0)) ∧
    (∀ cc, cc = S * M / C → cc ≠ 0 → S / cc = 0 →
      plan_partitions S M C = .error .zeroDivisionError) := by
  have hC0 : ¬ C = 0 := by omega
  have hS0 : ¬ S = 0 := by omega
  refine ⟨?_, ?_, ?_⟩
  · intro h
    refine ⟨?_, ?_⟩
    · simp [plan_partitions, hC0, h, hS0, partitions_list_self S hS]
    · by_contra hlt
      have h1 : 1 ≤ S * M / C := (Nat.one_le_div_iff (by omega)).mpr (by omega)
      omega
  · intro cc hcc hcc0 hcs0
    subst hcc
    have hcs : 1 ≤ S / (S * M / C) := Nat.one_le_iff_ne_zero.mpr hcs0
    refine ⟨?_, partitions_list_sum _ _ hcs, partitions_list_mem _ _ hcs,
      partitions_list_length _ _⟩
    simp [plan_partitions, hC0, hcc0, hcs0]
  · intro cc hcc hcc0 hcs0
    subst hcc
    simp [plan_partitions, hC0, hcc0, hcs0]

/-- Witness for the amended C4 at `S = 10`, `M = 1`, `C = 4`
(`chunk_count = 2`, chunk size `5`, partitions `[5, 5]`). -/
theorem plan_partitions_amended_witness :
    plan_partitions 10 1 4 = .ok (2, 10 / 2, partitions_list 10 (10 / 2)) ∧
    (partitions_list 10 (10 / 2)).sum = 10 ∧
    (∀ p ∈ partitions_list 10 (10 / 2), 1 ≤ p ∧ p ≤ 10 / 2) ∧
    (partitions_list 10 (10 / 2)).length =
      10 / (10 / 2) + (if 10 % (10 / 2) ≠ 0 then 1 else 0) :=
  (plan_partitions_amended 10 1 4 (by decide) (by decide) (by decide)).2.1 2
    (by decide) (by decide) (by decide)

theorem flatten_partitions_inner_length (name : String) (r : RunResult)
    (rand : Nat → Nat) (ps : List Nat)
    (acc : List (String × Nat × RunResult × Nat) × Nat) :
    (ps.foldl (fun acc2 p =>
        (acc2.1 ++ [(name, p, r, rand acc2.2)], acc2.2 + 1)) acc).1.length =
      acc.1.length + ps.length := by
  induction ps generalizing acc with
  | nil => simp
  | cons p ps ih =>
    simp only [List.foldl_cons, ih]
    simp
    omega

theorem flatten_partitions_length (rand : Nat → Nat)
    (results : List (String × RunResult)) :
    (flatten_partitions rand results).length =
      (results.map (fun nr => nr.2.partitions.length)).sum := by
  suffices h : ∀ acc : List (String × Nat × RunResult × Nat) × Nat,
      (results.foldl (fun acc nr =>
        nr.2.partitions.foldl (fun acc2 p =>
          (acc2.1 ++ [(nr.1, p, nr.2, rand acc2.2)], acc2.2 + 1)) acc) acc).1.length =
      acc.1.length + (results.map (fun nr => nr.2.partitions.length)).sum by
    simpa [flatten_partitions] using h ([], 0)
  induction results with
  | nil => simp
  | cons nr rest ih =>
    intro acc
    simp only [List.foldl_cons, ih, List.map_cons, List.sum_cons,
      flatten_partitions_inner_length]
    omega

theorem contIter_partitions {α ρ : Type} (g : List α → ρ → ρ)
    (parts : List α) (res0 : ρ) (n : Nat) :
    (contIter g ⟨0, parts, res0⟩ n).partitions = parts ∧
      (contIter g ⟨0, parts, res0⟩ n).i = n := by
  induction n with
  | zero => exact ⟨rfl, rfl⟩
  | succ n ih => simp [contIter, contBody, ih.1, ih.2]

theorem contRun_nonempty_none {α ρ : Type} (g : List α → ρ → ρ)
    (parts : List α) (h : parts ≠ []) :
    ∀ (fuel : Nat) (s : ContState α ρ), s.partitions = parts →
      contRun g fuel s = none := by
  intro fuel
  induction fuel with
  | zero => intro s _; rfl
  | succ fuel ih =>
    intro s hs
    have hc : contCond s = true := by
      simp [contCond, hs, List.length_pos, h]
    simp [contRun, hc]
    exact ih _ (by simp [contBody, hs])

/-- C5: in the continuation-round loop of `SMRegions.run` the flattened
deferred-partition list is computed once and the body never removes entries
from it, so the partitions component is the same at every iteration, the
guard `len(partitions) > 0 or i == 0` holds exactly when the list is
non-empty or no iteration has run yet, the loop exits after exactly one
iteration when the list is empty, and it never terminates (for any fuel)
when at least one deferred partition exists; the flattened list is empty
exactly when every result has an empty partition list. -/
theorem continuation_loop_correct (rand : Nat → Nat)
    (results : List (String × RunResult)) {ρ : Type}
    (g : List (String × Nat × RunResult × Nat) → ρ → ρ) (res0 : ρ) :
    (∀ n, (contIter g ⟨0, flatten_partitions rand results, res0⟩ n).partitions =
        flatten_partitions rand results ∧
      (contIter g ⟨0, flatten_partitions rand results, res0⟩ n).i = n) ∧
    (∀ n, contCond (contIter g ⟨0, flatten_partitions rand results, res0⟩ n) = true ↔
      (flatten_partitions rand results ≠ [] ∨ n = 0)) ∧
    (flatten_partitions rand results = [] →
      contRun g 2 ⟨0, flatten_partitions rand results, res0⟩ =
        some ⟨1, flatten_partitions rand results,
          g (flatten_partitions rand results) res0⟩) ∧
    (flatten_partitions rand results ≠ [] →
      ∀ fuel, contRun g fuel ⟨0, flatten_partitions rand results, res0⟩ = none) ∧
    (flatten_partitions rand results = [] ↔
      ∀ nr ∈ results, nr.2.partitions = []) := by
  set parts := flatten_partitions rand results with hparts
  refine ⟨fun n => contIter_partitions g parts res0 n, ?_, ?_, ?_, ?_⟩
  · intro n
    have h := contIter_partitions g parts res0 n
    simp only [contCond, h.1, h.2]
    constructor
    · intro hc
      rcases Bool.or_eq_true_iff.mp hc with hc | hc
      · exact Or.inl (by simpa [List.length_pos, decide_eq_true_iff] using hc)
      · exact Or.inr (by simpa using hc)
    · intro hor
      rcases hor with hne | rfl
      · exact Bool.or_eq_true_iff.mpr (Or.inl (by simpa [List.length_pos]))
      · exact Bool.or_eq_true_iff.mpr (Or.inr (by simp))
  · intro hempty
    simp [contRun, contCond, hempty, contBody]
  · intro hne fuel
    exact contRun_nonempty_none g parts hne fuel _ rfl
  · rw [← List.length_eq_zero, flatten_partitions_length]
    constructor
    · intro hsum nr hmem
      have := List.sum_eq_zero_iff.mp hsum
      have h0 := this _ (List.mem_map.mpr ⟨nr, hmem, rfl⟩)
      simpa [List.length_eq_zero] using h0
    · intro hall
      apply List.sum_eq_zero_iff.mpr
      intro x hx
      rcases List.mem_map.mp hx with ⟨nr, hmem, rfl⟩
      simp [List.length_eq_zero.mpr (hall nr hmem)]

/-- Witness for C5: an empty deferred list (loop exits after one iteration)
and a one-partition list (loop never terminates with fuel 3). -/
theorem continuation_loop_correct_witness :
    contRun (fun _ (r : Nat) => r) 2
        ⟨0, flatten_partitions (fun _ => 0)
          [("E", (⟨0, [], [], none, none, none, [], []⟩ : RunResult))], 0⟩ =
      some ⟨1, [], 0⟩ ∧
    contRun (fun _ (r : Nat) => r) 3
        ⟨0, flatten_partitions (fun _ => 0)
          [("E", (⟨1, [4], [], none, none, none, [], []⟩ : RunResult))], 0⟩ =
      none :=
  ⟨(continuation_loop_correct (fun _ => 0)
      [("E", (⟨0, [], [], none, none, none, [], []⟩ : RunResult))]
      (fun _ (r : Nat) => r) 0).2.2.1 (by decide),
    (continuation_loop_correct (fun _ => 0)
      [("E", (⟨1, [4], [], none, none, none, [], []⟩ : RunResult))]
      (fun _ (r : Nat) => r) 0).2.2.2.1 (by decide) 3⟩

/-- C10: when the output file already exists, `main` performs exactly the
warning step — the configuration is never loaded, the analysis is never
constructed or run — and the whole file system (in particular the existing
output file) is left unchanged. -/
theorem main_skips_when_output_exists (fs : String → Option String)
    (output_file pipelineOutput : String)
    (h : (fs output_file).isSome = true) :
    (smregions_main fs output_file pipelineOutput).steps =
      [.warnAlreadyCalculated] ∧
    MainStep.loadConfiguration ∉ (smregions_main fs output_file pipelineOutput).steps ∧
    MainStep.constructAnalysis ∉ (smregions_main fs output_file pipelineOutput).steps ∧
    MainStep.runAnalysis ∉ (smregions_main fs output_file pipelineOutput).steps ∧
    ∀ f, (smregions_main fs output_file pipelineOutput).fs f = fs f := by
  simp [smregions_main, h]

/-- Witness for C10: a file system where `out.tsv.gz` holds `old`. -/
theorem main_skips_when_output_exists_witness :
    (smregions_main
        (fun s => if s = "out.tsv.gz" then some "old" else none)
        "out.tsv.gz" "new").steps = [.warnAlreadyCalculated] ∧
    (smregions_main
        (fun s => if s = "out.tsv.gz" then some "old" else none)
        "out.tsv.gz" "new").fs "out.tsv.gz" = some "old" := by
  refine ⟨(main_skips_when_output_exists
      (fun s => if s = "out.tsv.gz" then some "old" else none)
      "out.tsv.gz" "new" (by simp)).1, ?_⟩
  rw [(main_skips_when_output_exists
      (fun s => if s = "out.tsv.gz" then some "old" else none)
      "out.tsv.gz" "new" (by simp)).2.2.2.2 "out.tsv.gz"]
  simp


theorem bh_length (ps : List ℚ) : (bh ps).length = ps.length := by
  simp [bh]

theorem bh_nil : bh [] = [] := by rfl

theorem foldl_if_append {α β : Type} (p : α → Prop) [DecidablePred p]
    (f : α → β) (l : List α) (acc : List β) :
    l.foldl (fun a x => if p x then a ++ [f x] else a) acc =
      acc ++ l.filterMap (fun x => if p x then some (f x) else none) := by
  induction l generalizing acc with
  | nil => simp
  | cons x xs ih =>
    by_cases h : p x <;> simp [h, ih, List.append_assoc]

theorem computeRows_eq_rowsSpec (S : Nat) (pdiv : ℚ → ℚ → ℚ → ℚ → QF × QF)
    (results : List RunResult) :
    computeRows S pdiv results = rowsSpec S pdiv results := by
  suffices h : ∀ acc, results.foldl (fun acc result =>
      result.in_reg_counts.foldl (fun acc2 rc =>
        if 0 < rc.2.1 then acc2 ++ [rowOf S pdiv result.nmuts rc] else acc2)
        acc) acc = acc ++ rowsSpec S pdiv results by
    simpa [computeRows] using h []
  induction results with
  | nil => intro acc; simp [rowsSpec]
  | cons r rest ih =>
    intro acc
    simp only [List.foldl_cons, rowsSpec, List.flatMap_cons]
    rw [foldl_if_append (fun rc => 0 < rc.2.1) (rowOf S pdiv r.nmuts), ih]
    simp [rowsSpec, List.append_assoc]

/-- C7: in the statistical aggregation a row is emitted for an
`(element, region)` pair exactly when the region's accumulated observed
count is strictly positive (a region with `observed = 0` yields no row at
all), and every emitted row's `MEAN_SIMULATED` is the accumulated simulated
count divided by the configured sample count `S`. -/
theorem compute_rows_correct (S : Nat) (hS : 1 ≤ S)
    (pdiv : ℚ → ℚ → ℚ → ℚ → QF × QF) (results : List RunResult) :
    computeRows S pdiv results = rowsSpec S pdiv results ∧
    (∀ row ∈ computeRows S pdiv results, 0 < row.observed) ∧
    (∀ result ∈ results, ∀ rc ∈ result.in_reg_counts, 0 < rc.2.1 →
      rowOf S pdiv result.nmuts rc ∈ computeRows S pdiv results) ∧
    (∀ row ∈ computeRows S pdiv results,
      ∃ result ∈ results, ∃ rc ∈ result.in_reg_counts, 0 < rc.2.1 ∧
        row = rowOf S pdiv result.nmuts rc ∧
        row.mean_simulated = (rc.2.2 : ℚ) / (S : ℚ)) := by
  have heq := computeRows_eq_rowsSpec S pdiv results
  refine ⟨heq, ?_, ?_, ?_⟩
  · intro row hrow
    rw [heq] at hrow
    rcases List.mem_flatMap.mp hrow with ⟨result, hres, hmem⟩
    rcases List.mem_filterMap.mp hmem with ⟨rc, hrc, hf⟩
    by_cases h : 0 < rc.2.1
    · simp only [h, if_true, Option.some.injEq] at hf
      rw [← hf]
      simpa [rowOf] using h
    · simp [h] at hf
  · intro result hres rc hrc h
    rw [heq]
    exact List.mem_flatMap.mpr ⟨result, hres,
      List.mem_filterMap.mpr ⟨rc, hrc, by simp [h]⟩⟩
  · intro row hrow
    rw [heq] at hrow
    rcases List.mem_flatMap.mp hrow with ⟨result, hres, hmem⟩
    rcases List.mem_filterMap.mp hmem with ⟨rc, hrc, hf⟩
    by_cases h : 0 < rc.2.1
    · simp only [h, if_true, Option.some.injEq] at hf
      exact ⟨result, hres, rc, hrc, h, hf.symm, by rw [← hf]; simp [rowOf]⟩
    · simp [h] at hf

/-- Witness for C7 at `S = 1` on one accumulator entry. -/
theorem compute_rows_correct_witness :
    1 ≤ (1 : Nat) ∧
    computeRows 1 pdivNaN [sampleRes] = rowsSpec 1 pdivNaN [sampleRes] :=
  ⟨by decide, (compute_rows_correct 1 (by decide) pdivNaN [sampleRes]).1⟩

/-- C8: every row of the final emitted table satisfies
`OBSERVED_REGION >= MEAN_SIMULATED`; a row with `observed < mean_simulated`
never appears. -/
theorem final_table_positive_selection (S : Nat) (hS : 1 ≤ S)
    (pdiv : ℚ → ℚ → ℚ → ℚ → QF × QF) (results : List RunResult) :
    ∀ rq ∈ finalTable S pdiv results,
      rq.1.mean_simulated ≤ (rq.1.observed : ℚ) := by
  intro rq hrq
  simp only [finalTable] at hrq
  have h1 : rq.1 ∈ retainRows (computeRows S pdiv results) := by
    obtain ⟨r, q⟩ := rq
    exact (List.of_mem_zip hrq).1
  unfold retainRows at h1
  split at h1
  · have := (List.mem_filter.mp h1).2
    exact of_decide_eq_true this
  · rename_i hlen
    have : computeRows S pdiv results = [] := List.length_eq_zero.mp (by omega)
    rw [this] at h1
    simp at h1

/-- Witness for C8: the single retained row of a concrete run has
`mean_simulated = 1 ≤ 2 = observed`. -/
theorem final_table_positive_selection_witness :
    (rowOf 1 pdivNaN 3 ("R;G", 2, 1)).mean_simulated ≤
      ((rowOf 1 pdivNaN 3 ("R;G", 2, 1)).observed : ℚ) := by
  refine final_table_positive_selection 1 (by decide) pdivNaN [sampleRes]
    (rowOf 1 pdivNaN 3 ("R;G", 2, 1), none) ?_
  have hrows : computeRows 1 pdivNaN [sampleRes] =
      [rowOf 1 pdivNaN 3 ("R;G", 2, 1)] := by
    simp [computeRows, sampleRes]
  have hmean : (rowOf 1 pdivNaN 3 ("R;G", 2, 1)).mean_simulated = 1 := by
    simp [rowOf]
  have hobs : (rowOf 1 pdivNaN 3 ("R;G", 2, 1)).observed = 2 := by
    simp [rowOf]
  have hret : retainRows (computeRows 1 pdivNaN [sampleRes]) =
      [rowOf 1 pdivNaN 3 ("R;G", 2, 1)] := by
    rw [hrows]
    simp [retainRows, List.filter, hmean, hobs]
  have hp : (rowOf 1 pdivNaN 3 ("R;G", 2, 1)).p_value = none := by
    simp [rowOf, pdivNaN]
  simp [finalTable, hret, qColumn, fillQ, hp, scatterQ, bh_nil]

theorem scatterQ_spec (ps : List QF) : ∀ (qs : List ℚ),
    qs.length = (ps.filterMap id).length →
    ((scatterQ ps qs).length = ps.length ∧
    (∀ i (hi : i < ps.length) (hq : i < (scatterQ ps qs).length),
      ps.get ⟨i, hi⟩ = none → (scatterQ ps qs).get ⟨i, hq⟩ = none) ∧
    ((ps.zip (scatterQ ps qs)).filterMap
        (fun pq => if pq.1.isSome then some pq.2 else none) = qs.map some)) := by
  induction ps with
  | nil =>
    intro qs h
    simp at h
    subst h
    refine ⟨rfl, ?_, by simp [scatterQ]⟩
    intro i hi
    simp at hi
  | cons p rest ih =>
    intro qs h
    match p, qs with
    | none, qs =>
      have h' : qs.length = (rest.filterMap id).length := by simpa using h
      obtain ⟨hl, hg, hz⟩ := ih qs h'
      refine ⟨by simpa [scatterQ] using hl, ?_, by simpa [scatterQ] using hz⟩
      intro i hi hq hnone
      match i with
      | 0 => simp [scatterQ]
      | Nat.succ j =>
        have hj : j < rest.length := by simpa using hi
        have hqj : j < (scatterQ rest qs).length := by
          simp [scatterQ] at hq
          omega
        have := hg j hj hqj (by simpa using hnone)
        simpa [scatterQ] using this
    | some a, [] =>
      exfalso
      simp at h
    | some a, q :: qs =>
      have h' : qs.length = (rest.filterMap id).length := by simpa using h
      obtain ⟨hl, hg, hz⟩ := ih qs h'
      refine ⟨by simpa [scatterQ] using hl, ?_, by simpa [scatterQ] using hz⟩
      intro i hi hq hnone
      match i with
      | 0 => simp at hnone
      | Nat.succ j =>
        have hj : j < rest.length := by simpa using hi
        have hqj : j < (scatterQ rest qs).length := by
          simp [scatterQ] at hq
          omega
        have := hg j hj hqj (by simpa using hnone)
        simpa [scatterQ] using this

theorem qColumn_spec (rows : List Row) :
    ((qColumn rows).length = rows.length ∧
    (∀ i (hi : i < (rows.map (fun r => r.p_value)).length)
      (hq : i < (qColumn rows).length),
      (rows.map (fun r => r.p_value)).get ⟨i, hi⟩ = none →
      (qColumn rows).get ⟨i, hq⟩ = none) ∧
    (((rows.map (fun r => r.p_value)).zip (qColumn rows)).filterMap
        (fun pq => if pq.1.isSome then some pq.2 else none) =
      (bh ((rows.map (fun r => r.p_value)).filterMap id)).map some)) := by
  by_cases hlen : 0 < rows.length
  · have hq : qColumn rows = fillQ (rows.map (fun r => r.p_value)) := by
      simp [qColumn, hlen]
    have hb : (bh ((rows.map (fun r => r.p_value)).filterMap id)).length =
        ((rows.map (fun r => r.p_value)).filterMap id).length := bh_length _
    obtain ⟨h1, h2, h3⟩ := scatterQ_spec (rows.map (fun r => r.p_value)) _ hb
    rw [hq]
    refine ⟨?_, ?_, ?_⟩
    · show (fillQ _).length = rows.length
      rw [fillQ, h1, List.length_map]
    · intro i hi hqi hnone
      exact h2 i hi (by simpa [fillQ] using hqi) hnone
    · exact h3
  · have hnil : rows = [] := List.length_eq_zero.mp (by omega)
    subst hnil
    refine ⟨by simp [qColumn], ?_, by simp [qColumn, bh_nil]⟩
    intro i hi
    simp at hi

/-- C9: over the retained row set the correction column has one entry per
row; a row whose p-value is non-finite receives the undefined (`none`, i.e.
NaN) corrected value; and the corrected values at the finite positions are
exactly the Benjamini–Hochberg adjustment `bh` applied to exactly the list
of finite p-values (no raise: the whole computation is a total function). -/
theorem q_value_correction (S : Nat) (hS : 1 ≤ S)
    (pdiv : ℚ → ℚ → ℚ → ℚ → QF × QF) (results : List RunResult) :
    ((qColumn (retainRows (computeRows S pdiv results))).length =
      (retainRows (computeRows S pdiv results)).length ∧
    (∀ i (hi : i < ((retainRows (computeRows S pdiv results)).map
        (fun r => r.p_value)).length)
      (hq : i < (qColumn (retainRows (computeRows S pdiv results))).length),
      ((retainRows (computeRows S pdiv results)).map
        (fun r => r.p_value)).get ⟨i, hi⟩ = none →
      (qColumn (retainRows (computeRows S pdiv results))).get ⟨i, hq⟩ = none) ∧
    ((((retainRows (computeRows S pdiv results)).map (fun r => r.p_value)).zip
        (qColumn (retainRows (computeRows S pdiv results)))).filterMap
        (fun pq => if pq.1.isSome then some pq.2 else none) =
      (bh (((retainRows (computeRows S pdiv results)).map
        (fun r => r.p_value)).filterMap id)).map some)) :=
  qColumn_spec (retainRows (computeRows S pdiv results))

/-- Witness for C9 at `S = 1` on one accumulator entry. -/
theorem q_value_correction_witness :
    1 ≤ (1 : Nat) ∧
    (qColumn (retainRows (computeRows 1 pdivNaN [sampleRes]))).length =
      (retainRows (computeRows 1 pdivNaN [sampleRes])).length :=
  ⟨by decide, (q_value_correction 1 (by decide) pdivNaN [sampleRes]).1⟩

theorem lookup_map_self {β : Type} (f : String → β)
    (l : List (String × List Mut)) (k : String) :
    (l.map (fun e => (e.1, f e.1))).lookup k =
      (l.lookup k).map (fun _ => f k) := by
  induction l with
  | nil => rfl
  | cons a rest ih =>
    simp only [List.map_cons, List.lookup]
    by_cases h : k = a.1
    · simp [h]
    · have hb : (k == a.1) = false := beq_eq_false_iff_ne.mpr h
      simp [hb, ih]

theorem lookup_isSome_of_mem (l : List (String × List Mut))
    (e : String × List Mut) (he : e ∈ l) : (l.lookup e.1).isSome := by
  induction l with
  | nil => simp at he
  | cons a rest ih =>
    rcases List.mem_cons.mp he with rfl | hmem
    · simp [List.lookup]
    · simp only [List.lookup]
      by_cases h : e.1 == a.1
      · simp [h]
      · simp only [h]
        exact ih hmem

theorem outer_fold_all_zero (ex : ElementExecutor)
    (draw : Nat → Nat → List PF → List (List Nat))
    (items : List (Int × Char)) (mps' mps : List (String × List Mut))
    (observed : List (Int × Char)) (muts_count : Nat) (st : ExecState)
    (hres : st.res_in_reg = st.in_reg)
    (hz : ∀ e ∈ mps', (pfSum (alGet st.probs e.1 [])).eqZero = true) :
    mps'.foldlM
      (fun st e => outerStep ex draw items mps observed muts_count st e.1) st =
    .ok { st with
      warnings := st.warnings ++
        List.replicate mps'.length (zeroWarn ex.name) } := by
  induction mps' generalizing st with
  | nil =>
    simp
    rfl
  | cons e rest ih =>
    have h1 : outerStep ex draw items mps observed muts_count st e.1 =
        .ok { st with
          warnings := st.warnings ++ [zeroWarn ex.name]
          res_in_reg := st.in_reg } := by
      simp [outerStep, hz e (List.mem_cons_self e rest)]
    rw [List.foldlM_cons, h1]
    simp only [bind, Except.bind]
    refine (ih { st with
        warnings := st.warnings ++ [zeroWarn ex.name]
        res_in_reg := st.in_reg } rfl
      (fun e' he' => hz e' (List.mem_cons_of_mem e he'))).trans ?_
    simp [hres, List.replicate_succ, List.append_assoc]

/-- C6 (amended): for an executor invoked with a per-sample mutation
mapping, a non-empty mutation list and at least one region of interest,
whose candidate weights sum to zero for *every* sample scope, `run` logs one
zero-probability warning per scope, performs no simulation (no
`np.random.choice` call), leaves the counts dict at its initialized empty
state, hands off nothing, and returns normally; such a result contributes
no rows to the final table.  (When only some scope has zero total weight the
claim fails: see the counterexample.) -/
theorem zero_weight_all_scopes (ex : ElementExecutor)
    (genome : String → Int → Char) (draw : Nat → Nat → List PF → List (List Nat))
    (mps : List (String × List Mut))
    (hmp : ex.mutpersample = .dict mps)
    (hmuts : ex.muts ≠ []) (hregs : ex.regions_of_interest ≠ [])
    (hzero : ∀ e ∈ mps,
      (pfSum ((elementCandidates genome ex.segments).map
        (fun c => candWeight (ex.signature e.1) c))).eqZero = true) :
    ex.run genome draw =
      .ok { nmuts := ex.muts.length
            partitions := []
            in_reg_counts := []
            region_of_interest := none
            simulation_items := none
            simulation_probs := none
            warnings := List.replicate mps.length (zeroWarn ex.name)
            simTrace := [] } ∧
    (∀ (S : Nat) (pdiv : ℚ → ℚ → ℚ → ℚ → QF × QF) (r : RunResult),
      r.in_reg_counts = [] → computeRows S pdiv [r] = []) := by
  constructor
  · have hc : 0 < ex.muts.length ∧ 0 < ex.regions_of_interest.length :=
      ⟨List.length_pos.mpr hmuts, List.length_pos.mpr hregs⟩
    simp only [ElementExecutor.run, hmp, if_pos hc]
    have hz : ∀ e ∈ mps,
        (pfSum (alGet (mps.map (fun e =>
          (e.1, (elementCandidates genome ex.segments).map
            (fun c => candWeight (ex.signature e.1) c)))) e.1 [])).eqZero = true := by
      intro e he
      have hl := lookup_map_self (fun k =>
        (elementCandidates genome ex.segments).map
          (fun c => candWeight (ex.signature k) c)) mps e.1
      have hs := lookup_isSome_of_mem mps e he
      rw [alGet, hl]
      rcases Option.isSome_iff_exists.mp hs with ⟨v, hv⟩
      rw [hv]
      simpa using hzero e he
    rw [outer_fold_all_zero ex draw _ mps mps _ ex.muts.length _ rfl hz]
    simp
  · intro S pdiv r hr
    simp [computeRows, hr]

/-- Witness for the amended C6: both scopes of `exAllZero` have zero total
weight; `run` returns normally with two warnings, no draws and empty
counts. -/
theorem zero_weight_all_scopes_witness :
    exAllZero.run (fun _ _ => 'C') (fun _ _ _ => []) =
      .ok { nmuts := 1
            partitions := []
            in_reg_counts := []
            region_of_interest := none
            simulation_items := none
            simulation_probs := none
            warnings := List.replicate 2 (zeroWarn "GENE3")
            simTrace := [] } :=
  (zero_weight_all_scopes exAllZero (fun _ _ => 'C') (fun _ _ _ => [])
    [("s1", [⟨100, 'A'⟩]), ("s2", [⟨100, 'A'⟩])] rfl (by decide) (by decide)
    (by decide)).1

/-- C6 counterexample: in `exMixedZero` the scope `s1` has candidate
weights summing to exactly zero while `s2` does not; `run` does not skip
`s1` — the simulation loop still normalizes `s1`'s zero-sum weights (giving
NaN) and calls `np.random.choice` with them, so the executor raises
`ValueError` instead of warning-and-continuing. -/
theorem zero_weight_mixed_counterexample :
    (pfSum ((elementCandidates (fun _ _ => 'C') exMixedZero.segments).map
      (fun c => candWeight (exMixedZero.signature "s1") c))).eqZero = true ∧
    ¬ (pfSum ((elementCandidates (fun _ _ => 'C') exMixedZero.segments).map
      (fun c => candWeight (exMixedZero.signature "s2") c))).eqZero = true ∧
    exMixedZero.run (fun _ _ => 'C') (fun _ _ _ => []) =
      .error (.valueError "probabilities contain NaN") := by
  decide

/-- C2: every executor constructed by `SMRegions.run` whose element has at
least one mutation and one region of interest raises `AttributeError` when
run: the call site routed the per-element random integer into
`mutpersample` (leaving `seed = None`) and `run` calls `.keys()` on that
integer, so no counts are ever produced for such an element. -/
theorem executor_int_mutpersample_raises (config : Config) (rand : Nat → Nat)
    (mutations : List (String × List Mut)) (elements : String → List Segment)
    (regions : String → List Region) (signature : String → Option SigTable) :
    ∀ ex ∈ makeExecutors config rand mutations elements regions signature,
      ex.muts ≠ [] → ex.regions_of_interest ≠ [] →
      (ex.seed = none ∧ (∃ r, ex.mutpersample = .int r) ∧
        ∀ (genome : String → Int → Char)
          (draw : Nat → Nat → List PF → List (List Nat)),
          ex.run genome draw =
            .error (.attributeError "int object has no attribute keys")) := by
  intro ex hmem h1 h2
  simp only [makeExecutors] at hmem
  rw [mem_pySorted] at hmem
  rcases List.mem_map.mp hmem with ⟨ie, hie, rfl⟩
  refine ⟨rfl, ⟨rand ie.1, rfl⟩, ?_⟩
  intro genome draw
  have hc : 0 < (ElementExecutor.init ie.2.1 ie.2.2 (elements ie.2.1)
      (regions ie.2.1) signature config (.int (rand ie.1))).muts.length ∧
      0 < (ElementExecutor.init ie.2.1 ie.2.2 (elements ie.2.1)
      (regions ie.2.1) signature config
        (.int (rand ie.1))).regions_of_interest.length :=
    ⟨List.length_pos.mpr h1, List.length_pos.mpr h2⟩
  simp only [ElementExecutor.run, if_pos hc]
  simp [ElementExecutor.init]

/-- Witness for C2: the single executor of a one-element input raises. -/
theorem executor_int_mutpersample_raises_witness :
    ex2w.run (fun _ _ => 'C') (fun _ _ _ => []) =
      .error (.attributeError "int object has no attribute keys") :=
  (executor_int_mutpersample_raises ⟨10, 1, 1, 0⟩ (fun _ => 7)
      [("E", [⟨5, 'A'⟩])] (fun _ => []) (fun _ => [⟨1, 10, "R;S"⟩])
      (fun _ => none) ex2w (List.Mem.head _) (by decide) (by decide)).2.2
    (fun _ _ => 'C') (fun _ _ _ => [])

/-- C1 (code bug): on a concrete one-element pipeline input the constructed
executor receives the per-element random integer as `mutpersample` and
keeps `seed = None` (so `np.random.seed(None)` re-seeds from OS entropy:
first-partition draws are *not* derived from the per-element integer), and
its `run` raises `AttributeError` — so the pipeline cannot reproduce
identical output rows from a fixed top-level seed. -/
theorem pipeline_seed_misrouted :
    ((makeExecutors ⟨1000, 1, 1, 42⟩ (fun k => k + 7) [("GENE1", [⟨100, 'A'⟩])]
        (fun _ => [⟨"1", 100, 105⟩]) (fun _ => [⟨100, 102, "R1;G1"⟩])
        (fun _ => none)).map (fun ex => (ex.name, ex.seed, ex.mutpersample)) =
      [("GENE1", none, .int 7)]) ∧
    ((makeExecutors ⟨1000, 1, 1, 42⟩ (fun k => k + 7) [("GENE1", [⟨100, 'A'⟩])]
        (fun _ => [⟨"1", 100, 105⟩]) (fun _ => [⟨100, 102, "R1;G1"⟩])
        (fun _ => none)).map
      (fun ex => ex.run (fun _ _ => 'C') (fun _ _ _ => [])) =
      [.error (.attributeError "int object has no attribute keys")]) := by
  decide

end SMReg
